import Mathlib

/-! Verification development for the gaelic-fonts utility `mark_gaelic.py`.

The file gives a shallow embedding of the script's data model and
operations: the filename filter `should_process_font`, the three metadata
patches (`add_irish_name_records`, `set_os2_latin_extended_additional`,
`add_gsub_iri_language`) composed into `mark_font_gaelic`, the directory
driver `process_directory` and the command-line entry point `main_run`.
Strings are embedded as `List Char`; the external font library (fontTools)
is out of scope for the repository and its name-table add operation is
modelled from the design document's external-collaborator contract. -/

namespace MarkGaelic

/-- Irish (Ireland) language ID for the Windows platform (`IRISH_LANG_ID = 0x083C`). -/
def IRISH_LANG_ID : Nat := 0x083C

/-- Windows platform ID (`PLATFORM_WINDOWS = 3`). -/
def PLATFORM_WINDOWS : Nat := 3

/-- Unicode BMP encoding ID (`ENCODING_UNICODE_BMP = 1`). -/
def ENCODING_UNICODE_BMP : Nat := 1

/-- English (US) language ID (`LANG_ENGLISH_US = 1033`). -/
def LANG_ENGLISH_US : Nat := 1033

/-- OS/2 ulUnicodeRange1 bit-29 mask (`BIT_29_MASK = 1 << 29`). -/
def BIT_29_MASK : Nat := 1 <<< 29

/-- OpenType language system tag for Irish (`IRI_TAG = "IRI "`). -/
def IRI_TAG : String := "IRI "

/-- Name IDs duplicated into Irish (`NAME_IDS_TO_COPY = {1, 2, 4, 5, 6}`). -/
def NAME_IDS_TO_COPY : List Nat := [1, 2, 4, 5, 6]

/-- Filename prefixes excluded from processing (`EXCLUDED_PREFIXES = ("SF-Pro",)`). -/
def EXCLUDED_PREFIXES : List (List Char) := ["SF-Pro".data]

/-- Valid font extensions (`FONT_EXTENSIONS = (".otf", ".woff2")`). -/
def FONT_EXTENSIONS : List (List Char) := [".otf".data, ".woff2".data]

/-- Index of the last occurrence of a character in a list, if any. -/
def rfindIdx (c : Char) (l : List Char) : Option Nat :=
  match l.reverse.findIdx? (fun x => x = c) with
  | some i => some (l.length - 1 - i)
  | none => none

/-- Embedding of `os.path.splitext` (POSIX semantics, as used by
`should_process_font`): the extension starts at the last dot, provided that
dot lies after the last path separator and at least one non-dot character of
the final path component precedes it; otherwise the extension is empty. -/
def splitext (p : List Char) : List Char × List Char :=
  let sepIdx : Int := match rfindIdx '/' p with | some i => (i : Int) | none => -1
  let dotIdx : Int := match rfindIdx '.' p with | some i => (i : Int) | none => -1
  if dotIdx > sepIdx then
    if (List.range p.length).any (fun j =>
        decide (sepIdx < (j : Int)) && decide ((j : Int) < dotIdx) &&
        decide (p.getD j '.' ≠ '.')) then
      (p.take dotIdx.toNat, p.drop dotIdx.toNat)
    else
      (p, [])
  else
    (p, [])

/-- Embedding of Python's `str.startswith` for the exact-case test
`filename.startswith(prefix)` (ASCII prefixes in this program). -/
def hasPrefixChars : List Char → List Char → Bool
  | [], _ => true
  | _ :: _, [] => false
  | p :: ps, c :: cs => p = c && hasPrefixChars ps cs

/-- Embedding of `should_process_font(filename)`: reject unless the
extension, lower-cased, is one of `FONT_EXTENSIONS`; then reject if the
filename starts with any prefix in `EXCLUDED_PREFIXES`; otherwise accept. -/
def should_process_font (filename : List Char) : Bool :=
  let ext := (splitext filename).2
  if (ext.map Char.toLower) ∉ FONT_EXTENSIONS then
    false
  else if EXCLUDED_PREFIXES.any (fun pfx => hasPrefixChars pfx filename) then
    false
  else
    true

/-- A record of the font's name table: `(nameID, platformID, platEncID,
langID)` plus its (already decoded) text. -/
structure NameRecord where
  nameID : Nat
  platformID : Nat
  platEncID : Nat
  langID : Nat
  text : String
deriving DecidableEq

/-- The per-record key used by `_add_irish_name_records`:
`(rec.nameID, rec.platformID, rec.platEncID)`. -/
def irishKey (r : NameRecord) : Nat × Nat × Nat :=
  (r.nameID, r.platformID, r.platEncID)

/-- Modelled from the spec: the external font library's
`name_table.setName(text, nameID, platformID, platEncID, langID)` call, per
the design document's external-collaborator contract
"add-name-record(text, nameID, platformID, encodingID, languageID)" —
it appends a record with the given fields to the name table. The library
itself (fontTools) is not part of this repository's sources. -/
def setName (names : List NameRecord) (text : String)
    (nameID platformID platEncID langID : Nat) : List NameRecord :=
  names ++ [{ nameID := nameID, platformID := platformID,
              platEncID := platEncID, langID := langID, text := text }]

/-- The set (as a list) of keys already present under the Irish language ID,
computed once before the copy loop of `_add_irish_name_records`. -/
def existingIrishKeys (names : List NameRecord) : List (Nat × Nat × Nat) :=
  (names.filter (fun r => decide (r.langID = IRISH_LANG_ID))).map irishKey

/-- The English Windows records eligible for copying, as materialised by the
list comprehension in `_add_irish_name_records`. -/
def englishRecords (names : List NameRecord) : List NameRecord :=
  names.filter (fun r =>
    decide (r.platformID = PLATFORM_WINDOWS ∧ r.platEncID = ENCODING_UNICODE_BMP ∧
            r.langID = LANG_ENGLISH_US ∧ r.nameID ∈ NAME_IDS_TO_COPY))

/-- The Irish copy of an English record, as created by the `setName` call:
same nameID and text, Windows platform, Unicode BMP encoding, Irish langID. -/
def toIrishRecord (r : NameRecord) : NameRecord :=
  { nameID := r.nameID, platformID := PLATFORM_WINDOWS,
    platEncID := ENCODING_UNICODE_BMP, langID := IRISH_LANG_ID, text := r.text }

/-- Name-table part of `_add_irish_name_records`: fold the copy loop over the
pre-materialised English records, with the pre-computed Irish key set. -/
def patchNames (names : List NameRecord) : List NameRecord :=
  (englishRecords names).foldl
    (fun acc rec =>
      if irishKey rec ∈ existingIrishKeys names then acc
      else setName acc rec.text rec.nameID PLATFORM_WINDOWS ENCODING_UNICODE_BMP
        IRISH_LANG_ID)
    names

/-- A LangSys table of the GSUB: `LookupOrder` (always `None` in practice),
`ReqFeatureIndex`, `FeatureIndex` list (possibly absent) and `FeatureCount`. -/
structure LangSys where
  LookupOrder : Option Unit
  ReqFeatureIndex : Nat
  FeatureIndex : Option (List Nat)
  FeatureCount : Nat
deriving DecidableEq

/-- A tagged language-system record of a GSUB script. -/
structure LangSysRecord where
  LangSysTag : String
  LangSys : LangSys
deriving DecidableEq

/-- A GSUB Script table: optional default LangSys, optional list of tagged
language-system records (None is normalised to [] when patched), and count. -/
structure Script where
  DefaultLangSys : Option LangSys
  LangSysRecord : Option (List LangSysRecord)
  LangSysCount : Nat
deriving DecidableEq

/-- A tagged script record of the GSUB ScriptList. -/
structure ScriptRecord where
  ScriptTag : String
  Script : Script
deriving DecidableEq

/-- The GSUB table: its ScriptList (possibly `None`). -/
structure GSUBTable where
  ScriptList : Option (List ScriptRecord)
deriving DecidableEq

/-- A font document, holding the three sub-structures the program touches:
the name table, the OS/2 `ulUnicodeRange1` field when the OS/2 table is
present, and the GSUB table when present. -/
structure Font where
  name : List NameRecord
  os2 : Option Nat
  gsub : Option GSUBTable
deriving DecidableEq

/-- Embedding of `_add_irish_name_records(font)`. -/
def add_irish_name_records (font : Font) : Font :=
  { font with name := patchNames font.name }

/-- OS/2 part of `_set_os2_latin_extended_additional`: when the table is
present, OR its `ulUnicodeRange1` with `BIT_29_MASK`; otherwise no-op. -/
def os2Patch : Option Nat → Option Nat
  | some v => some (v ||| BIT_29_MASK)
  | none => none

/-- Embedding of `_set_os2_latin_extended_additional(font)`. -/
def set_os2_latin_extended_additional (font : Font) : Font :=
  { font with os2 := os2Patch font.os2 }

/-- The new IRI LangSys built by `_add_gsub_iri_language`: it mirrors the
script's default LangSys when present (`FeatureIndex or []` guards a missing
feature list), else uses the 0xFFFF sentinel and an empty feature list. -/
def mkIriLangSys (script : Script) : LangSys :=
  match script.DefaultLangSys with
  | some d =>
      { LookupOrder := none,
        ReqFeatureIndex := d.ReqFeatureIndex,
        FeatureIndex := some (d.FeatureIndex.getD []),
        FeatureCount := (d.FeatureIndex.getD []).length }
  | none =>
      { LookupOrder := none,
        ReqFeatureIndex := 0xFFFF,
        FeatureIndex := some [],
        FeatureCount := 0 }

/-- Body of the latn branch of `_add_gsub_iri_language`: normalise a missing
LangSysRecord list to [], stop if `IRI ` is already tagged, otherwise append
the new record and update `LangSysCount`. -/
def patchLatnScript (script : Script) : Script :=
  let lsr := script.LangSysRecord.getD []
  if IRI_TAG ∈ lsr.map (fun lr => lr.LangSysTag) then
    script
  else
    let lang_record : LangSysRecord := { LangSysTag := IRI_TAG, LangSys := mkIriLangSys script }
    let newList := lsr ++ [lang_record]
    { script with LangSysRecord := some newList, LangSysCount := newList.length }

/-- The loop of `_add_gsub_iri_language` over `ScriptList.ScriptRecord`: the
first record tagged `latn` is patched and iteration stops (both the
IRI-already-present `return` and the post-append `break` end the loop);
records before it, and all records after it, are untouched. -/
def addIriToScriptList : List ScriptRecord → List ScriptRecord
  | [] => []
  | sr :: rest =>
    if sr.ScriptTag = "latn" then
      { sr with Script := patchLatnScript sr.Script } :: rest
    else
      sr :: addIriToScriptList rest

/-- ScriptList part of `_add_gsub_iri_language`: `if not gsub.ScriptList:
return` models as a no-op on `none`. -/
def scriptListPatch : Option (List ScriptRecord) → Option (List ScriptRecord)
  | none => none
  | some scripts => some (addIriToScriptList scripts)

/-- GSUB part of `_add_gsub_iri_language`: `if "GSUB" not in font: return`
models as a no-op on `none`. -/
def gsubPatch : Option GSUBTable → Option GSUBTable
  | none => none
  | some g => some ⟨scriptListPatch g.ScriptList⟩

/-- Embedding of `_add_gsub_iri_language(font)`. -/
def add_gsub_iri_language (font : Font) : Font :=
  { font with gsub := gsubPatch font.gsub }

/-- Embedding of `mark_font_gaelic`: the three patches applied in source
order (name records, then OS/2 bit, then GSUB tag); the open/save file
round-trip is abstracted away. -/
def mark_font_gaelic (font : Font) : Font :=
  add_gsub_iri_language (set_os2_latin_extended_additional (add_irish_name_records font))

/-- The progress line printed for each processed file. -/
def markingLine (filename : List Char) : List Char :=
  "Marking: ".data ++ filename

/-- The body of the `process_directory` loop over the sorted listing: skip
names rejected by the filter, skip non-regular files, and for each processed
file record the printed line and the filename (first component: printed
lines, second: processed filenames, both in visit order). -/
def processLoop (isfile : List Char → Bool) :
    List (List Char) → List (List Char) × List (List Char)
  | [] => ([], [])
  | n :: rest =>
    if should_process_font n then
      if isfile n then
        let r := processLoop isfile rest
        (markingLine n :: r.1, n :: r.2)
      else
        processLoop isfile rest
    else
      processLoop isfile rest

/-- Embedding of `process_directory(directory)`: `sorted(os.listdir(...))`
is a stable sort by the lexicographic order on strings (code-point order),
embedded as insertion sort under the lexicographic order on `List Char`;
`os.path.isfile` is abstracted as a predicate on entry names. -/
def process_directory (listing : List (List Char)) (isfile : List Char → Bool) :
    List (List Char) × List (List Char) :=
  processLoop isfile (List.insertionSort (· ≤ ·) listing)

/-- Error line printed to stderr when the argument is not a directory. -/
def errorLine (directory : List Char) : List Char :=
  "Error: ".data ++ directory ++ " is not a directory".data

/-- Final summary line printed on success. -/
def doneLine (count : Nat) : List Char :=
  "\nDone. Marked ".data ++ (Nat.repr count).data ++ " font files as Gaelic.".data

/-- Observable outcome of one program run: exit code, the stderr line if
any, the stdout lines, and the names of the font files that were opened,
patched and saved (empty when none was touched). -/
structure CliOutcome where
  exitCode : Nat
  errLine : Option (List Char)
  outLines : List (List Char)
  processedFiles : List (List Char)
deriving DecidableEq

/-- Embedding of `main()`: take `sys.argv[1]` if given, else the current
working directory; if that path is not a directory, print the error to
stderr and exit 1 touching nothing; otherwise run `process_directory` and
print its lines plus the final summary. The filesystem is abstracted as the
`isdir` and `isfile` predicates and the `listing` function. -/
def main_run (argv : List (List Char)) (cwd : List Char)
    (isdir : List Char → Bool) (listing : List Char → List (List Char))
    (isfile : List Char → Bool) : CliOutcome :=
  let directory := if argv.length > 1 then argv.getD 1 [] else cwd
  if isdir directory then
    let r := process_directory (listing directory) isfile
    { exitCode := 0, errLine := none,
      outLines := r.1 ++ [doneLine r.2.length], processedFiles := r.2 }
  else
    { exitCode := 1, errLine := some (errorLine directory),
      outLines := [], processedFiles := [] }

/-- The records appended by the name-record patch: the Irish copies of the
eligible English records whose key is not yet present under Irish. -/
def irishAdds (names : List NameRecord) : List NameRecord :=
  ((englishRecords names).filter
    (fun r => decide (irishKey r ∉ existingIrishKeys names))).map toIrishRecord

/-- The language-system tags declared by a script (after normalising a
missing record list to the empty list). -/
def langTags (s : Script) : List String :=
  (s.LangSysRecord.getD []).map (fun lr => lr.LangSysTag)

theorem foldl_setName_eq (ex : List (Nat × Nat × Nat)) (l : List NameRecord) :
    ∀ acc : List NameRecord,
      l.foldl
        (fun acc rec =>
          if irishKey rec ∈ ex then acc
          else setName acc rec.text rec.nameID PLATFORM_WINDOWS ENCODING_UNICODE_BMP
            IRISH_LANG_ID)
        acc
      = acc ++ (l.filter (fun r => decide (irishKey r ∉ ex))).map toIrishRecord := by
  induction l with
  | nil => intro acc; simp
  | cons r t ih =>
    intro acc
    by_cases h : irishKey r ∈ ex
    · simp only [List.foldl_cons, if_pos h, List.filter_cons]
      rw [ih]
      simp [h]
    · simp only [List.foldl_cons, if_neg h, List.filter_cons]
      rw [ih]
      simp [h, setName, toIrishRecord]

theorem patchNames_eq (names : List NameRecord) :
    patchNames names = names ++ irishAdds names :=
  foldl_setName_eq (existingIrishKeys names) (englishRecords names) names

theorem mem_existingIrishKeys {names : List NameRecord} {k : Nat × Nat × Nat} :
    k ∈ existingIrishKeys names ↔
      ∃ r, r ∈ names ∧ r.langID = IRISH_LANG_ID ∧ irishKey r = k := by
  simp [existingIrishKeys, List.mem_filter, and_assoc]

theorem mem_englishRecords {names : List NameRecord} {r : NameRecord} :
    r ∈ englishRecords names ↔
      r ∈ names ∧ r.platformID = PLATFORM_WINDOWS ∧ r.platEncID = ENCODING_UNICODE_BMP ∧
        r.langID = LANG_ENGLISH_US ∧ r.nameID ∈ NAME_IDS_TO_COPY := by
  simp [englishRecords, List.mem_filter, and_assoc]

theorem mem_irishAdds {names : List NameRecord} {x : NameRecord} :
    x ∈ irishAdds names ↔
      ∃ r, r ∈ englishRecords names ∧ irishKey r ∉ existingIrishKeys names ∧
        x = toIrishRecord r := by
  constructor
  · intro hx
    rcases List.mem_map.mp hx with ⟨r, hr, hxr⟩
    rcases List.mem_filter.mp hr with ⟨hre, hdec⟩
    exact ⟨r, hre, by simpa using hdec, hxr.symm⟩
  · rintro ⟨r, hre, hk, rfl⟩
    exact List.mem_map.mpr ⟨r, List.mem_filter.mpr ⟨hre, by simpa using hk⟩, rfl⟩

theorem irishKey_toIrishRecord (r : NameRecord) (h3 : r.platformID = PLATFORM_WINDOWS)
    (h1 : r.platEncID = ENCODING_UNICODE_BMP) :
    irishKey (toIrishRecord r) = irishKey r := by
  simp [irishKey, toIrishRecord, h3, h1]

theorem englishRecords_append (names adds : List NameRecord)
    (h : ∀ r ∈ adds, r.langID = IRISH_LANG_ID) :
    englishRecords (names ++ adds) = englishRecords names := by
  unfold englishRecords
  rw [List.filter_append]
  have hnil : adds.filter (fun r =>
      decide (r.platformID = PLATFORM_WINDOWS ∧ r.platEncID = ENCODING_UNICODE_BMP ∧
              r.langID = LANG_ENGLISH_US ∧ r.nameID ∈ NAME_IDS_TO_COPY)) = [] := by
    rw [List.filter_eq_nil_iff]
    intro a ha
    simp only [decide_eq_true_eq]
    rintro ⟨-, -, hlang, -⟩
    rw [h a ha] at hlang
    exact absurd hlang (by decide)
  rw [hnil, List.append_nil]

theorem existingIrishKeys_append (names adds : List NameRecord) :
    existingIrishKeys (names ++ adds) =
      existingIrishKeys names ++ existingIrishKeys adds := by
  simp [existingIrishKeys, List.filter_append]

theorem irishAdds_eq_nil (names : List NameRecord)
    (h : ∀ r ∈ englishRecords names, irishKey r ∈ existingIrishKeys names) :
    irishAdds names = [] := by
  unfold irishAdds
  have hf : (englishRecords names).filter
      (fun r => decide (irishKey r ∉ existingIrishKeys names)) = [] := by
    rw [List.filter_eq_nil_iff]
    intro a ha
    simp [h a ha]
  rw [hf]
  rfl

theorem irishAdds_langID {names : List NameRecord} :
    ∀ r ∈ irishAdds names, r.langID = IRISH_LANG_ID := by
  intro r hr
  rcases mem_irishAdds.mp hr with ⟨s, -, -, rfl⟩
  rfl

theorem patchNames_idem (names : List NameRecord) :
    patchNames (patchNames names) = patchNames names := by
  have hcov : ∀ r ∈ englishRecords (names ++ irishAdds names),
      irishKey r ∈ existingIrishKeys (names ++ irishAdds names) := by
    intro r hr
    rw [englishRecords_append names _ irishAdds_langID] at hr
    rcases mem_englishRecords.mp hr with ⟨hmem, h3, h1, hl, hid⟩
    rw [existingIrishKeys_append]
    by_cases hk : irishKey r ∈ existingIrishKeys names
    · exact List.mem_append_left _ hk
    · refine List.mem_append_right _ ?_
      apply mem_existingIrishKeys.mpr
      exact ⟨toIrishRecord r, mem_irishAdds.mpr ⟨r, hr, hk, rfl⟩, rfl,
        irishKey_toIrishRecord r h3 h1⟩
  rw [patchNames_eq names, patchNames_eq (names ++ irishAdds names),
    irishAdds_eq_nil _ hcov, List.append_nil]

theorem patchLatnScript_of_mem {s : Script} (h : IRI_TAG ∈ langTags s) :
    patchLatnScript s = s := by
  simp only [langTags] at h
  simp only [patchLatnScript]
  rw [if_pos h]

theorem patchLatnScript_of_not_mem {s : Script} (h : IRI_TAG ∉ langTags s) :
    patchLatnScript s =
      { s with
        LangSysRecord := some ((s.LangSysRecord.getD []) ++
          [{ LangSysTag := IRI_TAG, LangSys := mkIriLangSys s }]),
        LangSysCount := (s.LangSysRecord.getD []).length + 1 } := by
  simp only [langTags] at h
  simp only [patchLatnScript]
  rw [if_neg h]
  simp

theorem patchLatnScript_idem (s : Script) :
    patchLatnScript (patchLatnScript s) = patchLatnScript s := by
  by_cases h : IRI_TAG ∈ langTags s
  · simp only [patchLatnScript_of_mem h]
  · rw [patchLatnScript_of_not_mem h]
    apply patchLatnScript_of_mem
    simp [langTags]

theorem addIriToScriptList_no_latn {l : List ScriptRecord}
    (h : ∀ s ∈ l, s.ScriptTag ≠ "latn") :
    addIriToScriptList l = l := by
  induction l with
  | nil => rfl
  | cons sr rest ih =>
    simp only [addIriToScriptList]
    rw [if_neg (h sr (List.mem_cons_self sr rest)),
      ih (fun s hs => h s (List.mem_cons_of_mem sr hs))]

theorem addIriToScriptList_first_latn {pre post : List ScriptRecord} {sr : ScriptRecord}
    (hpre : ∀ s ∈ pre, s.ScriptTag ≠ "latn") (hsr : sr.ScriptTag = "latn") :
    addIriToScriptList (pre ++ sr :: post) =
      pre ++ { sr with Script := patchLatnScript sr.Script } :: post := by
  induction pre with
  | nil => simp [addIriToScriptList, hsr]
  | cons p t ih =>
    simp only [List.cons_append, addIriToScriptList, List.append_eq]
    rw [if_neg (hpre p (List.mem_cons_self p t)),
      ih (fun s hs => hpre s (List.mem_cons_of_mem p hs))]

theorem addIriToScriptList_idem (l : List ScriptRecord) :
    addIriToScriptList (addIriToScriptList l) = addIriToScriptList l := by
  induction l with
  | nil => rfl
  | cons sr rest ih =>
    by_cases h : sr.ScriptTag = "latn"
    · simp only [addIriToScriptList, if_pos h]
      rw [patchLatnScript_idem]
    · simp only [addIriToScriptList, if_neg h]
      rw [ih]

theorem os2Patch_idem (o : Option Nat) : os2Patch (os2Patch o) = os2Patch o := by
  cases o with
  | none => rfl
  | some v =>
    simp only [os2Patch, Option.some.injEq]
    rw [Nat.lor_assoc, Nat.or_self]

theorem scriptListPatch_idem (o : Option (List ScriptRecord)) :
    scriptListPatch (scriptListPatch o) = scriptListPatch o := by
  cases o with
  | none => rfl
  | some scripts =>
    simp only [scriptListPatch, Option.some.injEq]
    exact addIriToScriptList_idem scripts

theorem gsubPatch_idem (o : Option GSUBTable) : gsubPatch (gsubPatch o) = gsubPatch o := by
  cases o with
  | none => rfl
  | some g =>
    simp only [gsubPatch, Option.some.injEq, GSUBTable.mk.injEq]
    exact scriptListPatch_idem g.ScriptList

theorem mark_font_gaelic_fields (f : Font) :
    mark_font_gaelic f =
      { name := patchNames f.name, os2 := os2Patch f.os2, gsub := gsubPatch f.gsub } :=
  rfl

theorem mark_font_gaelic_idem (f : Font) :
    mark_font_gaelic (mark_font_gaelic f) = mark_font_gaelic f := by
  show ({ name := patchNames (patchNames f.name), os2 := os2Patch (os2Patch f.os2),
          gsub := gsubPatch (gsubPatch f.gsub) } : Font) =
    { name := patchNames f.name, os2 := os2Patch f.os2, gsub := gsubPatch f.gsub }
  rw [patchNames_idem, os2Patch_idem, gsubPatch_idem]

theorem processLoop_eq (isfile : List Char → Bool) (l : List (List Char)) :
    processLoop isfile l =
      ((l.filter (fun n => should_process_font n && isfile n)).map markingLine,
        l.filter (fun n => should_process_font n && isfile n)) := by
  induction l with
  | nil => rfl
  | cons n rest ih =>
    by_cases h1 : should_process_font n = true
    · by_cases h2 : isfile n = true
      · simp [processLoop, h1, h2, List.filter_cons, ih]
      · simp [processLoop, h1, h2, List.filter_cons, ih]
    · simp [processLoop, h1, List.filter_cons, ih]

theorem testBit_BIT_29_MASK_of_ne {i : Nat} (hi : i ≠ 29) :
    Nat.testBit BIT_29_MASK i = false := by
  simp [BIT_29_MASK, Nat.shiftLeft_eq, Nat.testBit_two_pow_of_ne (fun hh => hi hh.symm)]

theorem should_process_font_iff (filename : List Char) :
    should_process_font filename = true ↔
      ((splitext filename).2.map Char.toLower ∈ FONT_EXTENSIONS ∧
        ∀ pfx ∈ EXCLUDED_PREFIXES, hasPrefixChars pfx filename = false) := by
  constructor
  · intro h
    by_cases hext : ((splitext filename).2.map Char.toLower) ∈ FONT_EXTENSIONS
    · refine ⟨hext, ?_⟩
      intro pfx hp
      by_contra hcontra
      have hpfx : (EXCLUDED_PREFIXES.any fun q => hasPrefixChars q filename) = true :=
        List.any_eq_true.mpr ⟨pfx, hp, by simpa using hcontra⟩
      unfold should_process_font at h
      rw [if_neg (not_not_intro hext), if_pos hpfx] at h
      exact absurd h (by simp)
    · unfold should_process_font at h
      rw [if_pos hext] at h
      exact absurd h (by simp)
  · rintro ⟨hext, hall⟩
    unfold should_process_font
    rw [if_neg (not_not_intro hext), if_neg ?hany]
    case hany =>
      intro hpfx
      rcases List.any_eq_true.mp hpfx with ⟨pfx, hp, htrue⟩
      rw [hall pfx hp] at htrue
      exact absurd htrue (by simp)

def engC : NameRecord := ⟨1, 3, 1, 1033, "A"⟩

def iriC : NameRecord := ⟨1, 3, 1, 0x083C, "X"⟩

def fontC : Font := ⟨[engC, iriC], none, none⟩

/-- C1 (counterexample): in a font whose name table already holds an Irish
record with key (1, 3, 1) but text "X", the English record with nameID 1 and
text "A" qualifies for copying, yet after the name-record patch no record
with that key under the Irish language ID carries the English text — the
pre-existing Irish record is kept as-is, so the claim's unconditional
"text identical to the English record's text" fails. -/
theorem claim1_counterexample :
    (engC ∈ fontC.name ∧ engC.platformID = PLATFORM_WINDOWS ∧
      engC.platEncID = ENCODING_UNICODE_BMP ∧ engC.langID = LANG_ENGLISH_US ∧
      engC.nameID ∈ NAME_IDS_TO_COPY) ∧
    ¬ ∃ r ∈ (add_irish_name_records fontC).name,
        r.nameID = engC.nameID ∧ r.platformID = PLATFORM_WINDOWS ∧
        r.platEncID = ENCODING_UNICODE_BMP ∧ r.langID = IRISH_LANG_ID ∧
        r.text = engC.text := by
  decide

/-- C1 (amended): for every English-US Windows Unicode-BMP record with
nameID in the copy set, after the name-record patch a record with the same
nameID, platform and encoding exists under the Irish language ID; when no
Irish record with that key pre-existed, the added record also carries the
English record's text; and for keys already present under Irish, the Irish
records with that key are exactly those of the input (created only when
absent, pre-existing ones untouched). -/
theorem claim1_irish_name_records (font : Font) (rec : NameRecord)
    (hmem : rec ∈ font.name) (h3 : rec.platformID = PLATFORM_WINDOWS)
    (h1 : rec.platEncID = ENCODING_UNICODE_BMP) (hl : rec.langID = LANG_ENGLISH_US)
    (hid : rec.nameID ∈ NAME_IDS_TO_COPY) :
    (∃ r ∈ (add_irish_name_records font).name,
        r.nameID = rec.nameID ∧ r.platformID = PLATFORM_WINDOWS ∧
        r.platEncID = ENCODING_UNICODE_BMP ∧ r.langID = IRISH_LANG_ID) ∧
    (irishKey rec ∉ existingIrishKeys font.name →
      ∃ r ∈ (add_irish_name_records font).name,
        r.nameID = rec.nameID ∧ r.platformID = PLATFORM_WINDOWS ∧
        r.platEncID = ENCODING_UNICODE_BMP ∧ r.langID = IRISH_LANG_ID ∧
        r.text = rec.text) ∧
    (∀ k ∈ existingIrishKeys font.name,
      (add_irish_name_records font).name.filter
          (fun r => decide (r.langID = IRISH_LANG_ID ∧ irishKey r = k)) =
        font.name.filter
          (fun r => decide (r.langID = IRISH_LANG_ID ∧ irishKey r = k))) := by
  have hres : (add_irish_name_records font).name = font.name ++ irishAdds font.name :=
    patchNames_eq font.name
  have heng : rec ∈ englishRecords font.name :=
    mem_englishRecords.mpr ⟨hmem, h3, h1, hl, hid⟩
  have hpart2 : irishKey rec ∉ existingIrishKeys font.name →
      ∃ r ∈ (add_irish_name_records font).name,
        r.nameID = rec.nameID ∧ r.platformID = PLATFORM_WINDOWS ∧
        r.platEncID = ENCODING_UNICODE_BMP ∧ r.langID = IRISH_LANG_ID ∧
        r.text = rec.text := by
    intro hk
    refine ⟨toIrishRecord rec, ?_, rfl, rfl, rfl, rfl, rfl⟩
    rw [hres]
    exact List.mem_append_right _ (mem_irishAdds.mpr ⟨rec, heng, hk, rfl⟩)
  refine ⟨?_, hpart2, ?_⟩
  · by_cases hk : irishKey rec ∈ existingIrishKeys font.name
    · rcases mem_existingIrishKeys.mp hk with ⟨r, hrmem, hrlang, hrkey⟩
      have hcomp : r.nameID = rec.nameID ∧ r.platformID = rec.platformID ∧
          r.platEncID = rec.platEncID := by
        simpa [irishKey, Prod.ext_iff] using hrkey
      refine ⟨r, ?_, hcomp.1, hcomp.2.1.trans h3, hcomp.2.2.trans h1, hrlang⟩
      rw [hres]
      exact List.mem_append_left _ hrmem
    · rcases hpart2 hk with ⟨r, hr, e1, e2, e3, e4, -⟩
      exact ⟨r, hr, e1, e2, e3, e4⟩
  · intro k hk
    rw [hres, List.filter_append]
    have hnil : (irishAdds font.name).filter
        (fun r => decide (r.langID = IRISH_LANG_ID ∧ irishKey r = k)) = [] := by
      rw [List.filter_eq_nil_iff]
      intro a ha
      rcases mem_irishAdds.mp ha with ⟨s, hs, hsk, rfl⟩
      rcases mem_englishRecords.mp hs with ⟨-, hs3, hs1, -, -⟩
      simp only [decide_eq_true_eq]
      rintro ⟨-, hkey⟩
      rw [irishKey_toIrishRecord s hs3 hs1] at hkey
      rw [hkey] at hsk
      exact hsk hk
    rw [hnil, List.append_nil]

def fontW1 : Font := ⟨[⟨1, 3, 1, 1033, "A"⟩], none, none⟩

/-- C1 witness: the amended theorem applied to a one-record font with a
single eligible English family-name record and no Irish records. -/
theorem claim1_witness :
    (∃ r ∈ (add_irish_name_records fontW1).name,
        r.nameID = (⟨1, 3, 1, 1033, "A"⟩ : NameRecord).nameID ∧
        r.platformID = PLATFORM_WINDOWS ∧
        r.platEncID = ENCODING_UNICODE_BMP ∧ r.langID = IRISH_LANG_ID) ∧
    (irishKey ⟨1, 3, 1, 1033, "A"⟩ ∉ existingIrishKeys fontW1.name →
      ∃ r ∈ (add_irish_name_records fontW1).name,
        r.nameID = (⟨1, 3, 1, 1033, "A"⟩ : NameRecord).nameID ∧
        r.platformID = PLATFORM_WINDOWS ∧
        r.platEncID = ENCODING_UNICODE_BMP ∧ r.langID = IRISH_LANG_ID ∧
        r.text = (⟨1, 3, 1, 1033, "A"⟩ : NameRecord).text) ∧
    (∀ k ∈ existingIrishKeys fontW1.name,
      (add_irish_name_records fontW1).name.filter
          (fun r => decide (r.langID = IRISH_LANG_ID ∧ irishKey r = k)) =
        fontW1.name.filter
          (fun r => decide (r.langID = IRISH_LANG_ID ∧ irishKey r = k))) :=
  claim1_irish_name_records fontW1 ⟨1, 3, 1, 1033, "A"⟩ (by decide) rfl rfl rfl (by decide)

/-- C2: the metadata patcher is idempotent — applying `mark_font_gaelic`
twice gives the very same document as applying it once (hence the same
Irish name records, the same OS/2 capability-bits value and the same GSUB
language-system records), and applying it n+1 times equals applying it
once, for every n. -/
theorem claim2_patcher_idempotent (font : Font) (n : Nat) :
    mark_font_gaelic (mark_font_gaelic font) = mark_font_gaelic font ∧
    mark_font_gaelic^[n + 1] font = mark_font_gaelic font := by
  refine ⟨mark_font_gaelic_idem font, ?_⟩
  induction n with
  | zero => simp
  | succ m ih =>
    rw [Function.iterate_succ_apply', ih, mark_font_gaelic_idem]

def fontW2 : Font := ⟨[⟨2, 3, 1, 1033, "Regular"⟩], some 3, none⟩

/-- C2 witness: idempotence evaluated on a small concrete font. -/
theorem claim2_witness :
    mark_font_gaelic (mark_font_gaelic fontW2) = mark_font_gaelic fontW2 ∧
    mark_font_gaelic^[2] fontW2 = mark_font_gaelic fontW2 :=
  claim2_patcher_idempotent fontW2 1

/-- C3: on a GSUB whose script list has a first `latn` script without an
`IRI ` record, the patch appends exactly one `IRI ` record to that script,
updates its count to the old length plus one, leaves every other script
record (before and after) unchanged, and the new record mirrors the default
language system verbatim when one exists, else uses the 0xFFFF sentinel and
an empty feature list. -/
theorem claim3_gsub_append (font : Font) (g : GSUBTable)
    (pre post : List ScriptRecord) (sr : ScriptRecord)
    (hg : font.gsub = some g)
    (hsl : g.ScriptList = some (pre ++ sr :: post))
    (hpre : ∀ s ∈ pre, s.ScriptTag ≠ "latn")
    (hsr : sr.ScriptTag = "latn")
    (hiri : IRI_TAG ∉ langTags sr.Script) :
    ∃ newRec : LangSysRecord,
      newRec.LangSysTag = IRI_TAG ∧
      (add_gsub_iri_language font).gsub =
        some ⟨some (pre ++
          { sr with Script :=
            { sr.Script with
              LangSysRecord := some ((sr.Script.LangSysRecord.getD []) ++ [newRec]),
              LangSysCount := (sr.Script.LangSysRecord.getD []).length + 1 } } :: post)⟩ ∧
      (∀ d, sr.Script.DefaultLangSys = some d →
        newRec.LangSys.ReqFeatureIndex = d.ReqFeatureIndex ∧
        newRec.LangSys.FeatureIndex = some (d.FeatureIndex.getD []) ∧
        newRec.LangSys.FeatureCount = (d.FeatureIndex.getD []).length) ∧
      (sr.Script.DefaultLangSys = none →
        newRec.LangSys.ReqFeatureIndex = 0xFFFF ∧
        newRec.LangSys.FeatureIndex = some [] ∧
        newRec.LangSys.FeatureCount = 0) := by
  refine ⟨{ LangSysTag := IRI_TAG, LangSys := mkIriLangSys sr.Script }, rfl, ?_, ?_, ?_⟩
  · show gsubPatch font.gsub = _
    rw [hg]
    simp only [gsubPatch]
    rw [hsl]
    simp only [scriptListPatch]
    rw [addIriToScriptList_first_latn hpre hsr, patchLatnScript_of_not_mem hiri]
  · intro d hd
    simp [mkIriLangSys, hd]
  · intro hd
    simp [mkIriLangSys, hd]

def dlsW : LangSys := ⟨none, 33, some [3, 7], 2⟩

def scW : Script := ⟨some dlsW, none, 0⟩

def srW : ScriptRecord := ⟨"latn", scW⟩

def gW : GSUBTable := ⟨some [srW]⟩

def fontW3 : Font := ⟨[], none, some gW⟩

/-- C3 witness: the GSUB patch applied to a font with one `latn` script
whose default language system exposes features [3, 7] and no `IRI ` entry. -/
theorem claim3_witness :
    ∃ newRec : LangSysRecord,
      newRec.LangSysTag = IRI_TAG ∧
      (add_gsub_iri_language fontW3).gsub =
        some ⟨some ([] ++
          { srW with Script :=
            { srW.Script with
              LangSysRecord := some ((srW.Script.LangSysRecord.getD []) ++ [newRec]),
              LangSysCount := (srW.Script.LangSysRecord.getD []).length + 1 } } :: [])⟩ ∧
      (∀ d, srW.Script.DefaultLangSys = some d →
        newRec.LangSys.ReqFeatureIndex = d.ReqFeatureIndex ∧
        newRec.LangSys.FeatureIndex = some (d.FeatureIndex.getD []) ∧
        newRec.LangSys.FeatureCount = (d.FeatureIndex.getD []).length) ∧
      (srW.Script.DefaultLangSys = none →
        newRec.LangSys.ReqFeatureIndex = 0xFFFF ∧
        newRec.LangSys.FeatureIndex = some [] ∧
        newRec.LangSys.FeatureCount = 0) :=
  claim3_gsub_append fontW3 gW [] [] srW rfl rfl (by simp) rfl (by decide)

/-- C4: when the OS/2 table is present with first Unicode-range value v, the
capability-bit patch stores v OR 2^29; bit 29 of the result is set, every
other bit of the result equals the corresponding bit of v, and if bit 29
was already set the value is unchanged; when the table is absent the patch
is the identity; the name table and GSUB table are never read or written. -/
theorem claim4_os2_bit29 (font : Font) (v : Nat) :
    (font.os2 = some v →
      (set_os2_latin_extended_additional font).os2 = some (v ||| BIT_29_MASK) ∧
      Nat.testBit (v ||| BIT_29_MASK) 29 = true ∧
      (∀ i, i ≠ 29 → Nat.testBit (v ||| BIT_29_MASK) i = Nat.testBit v i) ∧
      (Nat.testBit v 29 = true → v ||| BIT_29_MASK = v)) ∧
    (font.os2 = none → set_os2_latin_extended_additional font = font) ∧
    (set_os2_latin_extended_additional font).name = font.name ∧
    (set_os2_latin_extended_additional font).gsub = font.gsub := by
  refine ⟨?_, ?_, rfl, rfl⟩
  · intro h
    refine ⟨?_, ?_, ?_, ?_⟩
    · show os2Patch font.os2 = _
      rw [h]
      rfl
    · rw [Nat.testBit_lor]
      have hm : Nat.testBit BIT_29_MASK 29 = true := by decide
      rw [hm, Bool.or_true]
    · intro i hi
      rw [Nat.testBit_lor, testBit_BIT_29_MASK_of_ne hi, Bool.or_false]
    · intro h29
      apply Nat.eq_of_testBit_eq
      intro i
      rw [Nat.testBit_lor]
      by_cases hi : i = 29
      · subst hi
        rw [h29]
        rfl
      · rw [testBit_BIT_29_MASK_of_ne hi, Bool.or_false]
  · intro h
    cases font with
    | mk nm o g =>
      simp only at h
      subst h
      rfl

/-- C4 witness: the theorem applied to a font with `ulUnicodeRange1 = 5`
and to a font without an OS/2 table. -/
theorem claim4_witness :
    (set_os2_latin_extended_additional ⟨[], some 5, none⟩).os2 =
        some (5 ||| BIT_29_MASK) ∧
    set_os2_latin_extended_additional ⟨[], none, none⟩ = ⟨[], none, none⟩ :=
  ⟨((claim4_os2_bit29 ⟨[], some 5, none⟩ 5).1 rfl).1,
    (claim4_os2_bit29 ⟨[], none, none⟩ 0).2.1 rfl⟩

/-- C5: the filename filter accepts exactly the filenames whose extension,
lower-cased, is one of the two allowed extensions and which start with no
excluded prefix; it is a total function; and it decides the spec's four
examples as stated. -/
theorem claim5_should_process (filename : List Char) :
    (should_process_font filename = true ↔
      ((splitext filename).2.map Char.toLower ∈ FONT_EXTENSIONS ∧
        ∀ pfx ∈ EXCLUDED_PREFIXES, hasPrefixChars pfx filename = false)) ∧
    should_process_font "aonchlo.otf".data = true ∧
    should_process_font "SF-Pro-Text-Bold.otf".data = false ∧
    should_process_font "Credits.rtf".data = false ∧
    should_process_font "richlo.woff2".data = true :=
  ⟨should_process_font_iff filename, by decide, by decide, by decide, by decide⟩

/-- C5 witness: the characterisation evaluated at a concrete filename. -/
theorem claim5_witness :
    (should_process_font "aonchlo.otf".data = true ↔
      ((splitext "aonchlo.otf".data).2.map Char.toLower ∈ FONT_EXTENSIONS ∧
        ∀ pfx ∈ EXCLUDED_PREFIXES, hasPrefixChars pfx "aonchlo.otf".data = false)) ∧
    should_process_font "aonchlo.otf".data = true ∧
    should_process_font "SF-Pro-Text-Bold.otf".data = false ∧
    should_process_font "Credits.rtf".data = false ∧
    should_process_font "richlo.woff2".data = true :=
  claim5_should_process "aonchlo.otf".data

/-- C6: the GSUB patch is a silent no-op (total, and the document is
unchanged) when the font has no GSUB table, when the GSUB has no script
list, when no script is tagged `latn`, and when the first `latn` script
already declares an `IRI ` language system. -/
theorem claim6_gsub_noop (font : Font) :
    (font.gsub = none → add_gsub_iri_language font = font) ∧
    (∀ g : GSUBTable, font.gsub = some g → g.ScriptList = none →
      add_gsub_iri_language font = font) ∧
    (∀ (g : GSUBTable) (scripts : List ScriptRecord), font.gsub = some g →
      g.ScriptList = some scripts → (∀ s ∈ scripts, s.ScriptTag ≠ "latn") →
      add_gsub_iri_language font = font) ∧
    (∀ (g : GSUBTable) (pre post : List ScriptRecord) (sr : ScriptRecord),
      font.gsub = some g → g.ScriptList = some (pre ++ sr :: post) →
      (∀ s ∈ pre, s.ScriptTag ≠ "latn") → sr.ScriptTag = "latn" →
      IRI_TAG ∈ langTags sr.Script →
      add_gsub_iri_language font = font) := by
  refine ⟨?_, ?_, ?_, ?_⟩
  · intro h
    cases font with
    | mk nm o g =>
      simp only at h
      subst h
      rfl
  · intro g hg hsl
    cases font with
    | mk nm o gf =>
      simp only at hg
      subst hg
      cases g with
      | mk sl =>
        simp only at hsl
        subst hsl
        rfl
  · intro g scripts hg hsl hno
    cases font with
    | mk nm o gf =>
      simp only at hg
      subst hg
      cases g with
      | mk sl =>
        simp only at hsl
        subst hsl
        simp only [add_gsub_iri_language, gsubPatch, scriptListPatch]
        rw [addIriToScriptList_no_latn hno]
  · intro g pre post sr hg hsl hpre hsr hiri
    cases font with
    | mk nm o gf =>
      simp only at hg
      subst hg
      cases g with
      | mk sl =>
        simp only at hsl
        subst hsl
        simp only [add_gsub_iri_language, gsubPatch, scriptListPatch]
        rw [addIriToScriptList_first_latn hpre hsr, patchLatnScript_of_mem hiri]

def iriLsW : LangSys := ⟨none, 0xFFFF, some [], 0⟩

def srIriW : ScriptRecord :=
  ⟨"latn", ⟨none, some [{ LangSysTag := IRI_TAG, LangSys := iriLsW }], 1⟩⟩

def fontE1 : Font := ⟨[], none, none⟩

def fontE2 : Font := ⟨[], none, some ⟨none⟩⟩

def fontE3 : Font := ⟨[], none, some ⟨some [⟨"grek", ⟨none, none, 0⟩⟩]⟩⟩

def fontE4 : Font := ⟨[], none, some ⟨some [srIriW]⟩⟩

/-- C6 witness: the four no-op branches evaluated on concrete fonts — no
GSUB, no script list, no `latn` script, and `IRI ` already present. -/
theorem claim6_witness :
    add_gsub_iri_language fontE1 = fontE1 ∧
    add_gsub_iri_language fontE2 = fontE2 ∧
    add_gsub_iri_language fontE3 = fontE3 ∧
    add_gsub_iri_language fontE4 = fontE4 :=
  ⟨(claim6_gsub_noop fontE1).1 rfl,
    (claim6_gsub_noop fontE2).2.1 ⟨none⟩ rfl rfl,
    (claim6_gsub_noop fontE3).2.2.1 ⟨some [⟨"grek", ⟨none, none, 0⟩⟩]⟩
      [⟨"grek", ⟨none, none, 0⟩⟩] rfl rfl (by decide),
    (claim6_gsub_noop fontE4).2.2.2 ⟨some [srIriW]⟩ [] [] srIriW rfl rfl
      (by simp) rfl (by decide)⟩

/-- C7: the patcher only appends to the name table — after
`mark_font_gaelic` the name table is the input table followed by the added
records, each of which carries the Irish language ID on the Windows
platform with Unicode-BMP encoding and is not among the pre-existing
records; every pre-existing record (English-US, Irish or otherwise) is kept
at its position, unchanged. -/
theorem claim7_frame (font : Font) :
    ∃ added : List NameRecord,
      (mark_font_gaelic font).name = font.name ++ added ∧
      ∀ r ∈ added, r.langID = IRISH_LANG_ID ∧ r.platformID = PLATFORM_WINDOWS ∧
        r.platEncID = ENCODING_UNICODE_BMP ∧ r ∉ font.name := by
  refine ⟨irishAdds font.name, ?_, ?_⟩
  · show patchNames font.name = font.name ++ irishAdds font.name
    exact patchNames_eq font.name
  · intro r hr
    rcases mem_irishAdds.mp hr with ⟨s, hs, hknot, rfl⟩
    rcases mem_englishRecords.mp hs with ⟨hsmem, h3, h1, hl, hid⟩
    refine ⟨rfl, rfl, rfl, ?_⟩
    intro habs
    apply hknot
    have hkey : irishKey (toIrishRecord s) ∈ existingIrishKeys font.name :=
      mem_existingIrishKeys.mpr ⟨toIrishRecord s, habs, rfl, rfl⟩
    rwa [irishKey_toIrishRecord s h3 h1] at hkey

def fontW7 : Font := ⟨[⟨1, 3, 1, 1033, "F"⟩, ⟨1, 1, 0, 0, "F"⟩], some 0, none⟩

/-- C7 witness: the frame property evaluated on a concrete two-record font. -/
theorem claim7_witness :
    ∃ added : List NameRecord,
      (mark_font_gaelic fontW7).name = fontW7.name ++ added ∧
      ∀ r ∈ added, r.langID = IRISH_LANG_ID ∧ r.platformID = PLATFORM_WINDOWS ∧
        r.platEncID = ENCODING_UNICODE_BMP ∧ r ∉ fontW7.name :=
  claim7_frame fontW7

/-- C8: the directory driver visits the listing in lexicographic order,
processes exactly the entries that pass the filename filter and are regular
files, prints one `Marking: <filename>` line per processed file, and
returns the processed filenames in that order — the returned list is the
sorted listing filtered by the two tests, it is lexicographically sorted,
and it is a permutation of the qualifying entries of the raw listing. -/
theorem claim8_process_directory (listing : List (List Char))
    (isfile : List Char → Bool) :
    process_directory listing isfile =
      (((List.insertionSort (· ≤ ·) listing).filter
          (fun n => should_process_font n && isfile n)).map markingLine,
        (List.insertionSort (· ≤ ·) listing).filter
          (fun n => should_process_font n && isfile n)) ∧
    List.Sorted (· ≤ ·) (process_directory listing isfile).2 ∧
    List.Perm (process_directory listing isfile).2
      (listing.filter (fun n => should_process_font n && isfile n)) := by
  have heq := processLoop_eq isfile (List.insertionSort (· ≤ ·) listing)
  refine ⟨heq, ?_, ?_⟩
  · show List.Sorted (· ≤ ·) (processLoop isfile (List.insertionSort (· ≤ ·) listing)).2
    rw [heq]
    exact List.Pairwise.filter _ (List.sorted_insertionSort _ listing)
  · show List.Perm (processLoop isfile (List.insertionSort (· ≤ ·) listing)).2 _
    rw [heq]
    exact List.Perm.filter _ (List.perm_insertionSort _ listing)

/-- C8 witness: the driver evaluated on a concrete unsorted listing with an
excluded font, a non-font file and a directory entry. -/
theorem claim8_witness :
    process_directory ["richlo.woff2".data, "aonchlo.otf".data, "Credits.rtf".data]
        (fun n => n ≠ "Credits.rtf".data) =
      (((List.insertionSort (· ≤ ·)
            ["richlo.woff2".data, "aonchlo.otf".data, "Credits.rtf".data]).filter
          (fun n => should_process_font n && (n ≠ "Credits.rtf".data : Bool))).map
          markingLine,
        (List.insertionSort (· ≤ ·)
            ["richlo.woff2".data, "aonchlo.otf".data, "Credits.rtf".data]).filter
          (fun n => should_process_font n && (n ≠ "Credits.rtf".data : Bool))) ∧
    List.Sorted (· ≤ ·)
      (process_directory ["richlo.woff2".data, "aonchlo.otf".data, "Credits.rtf".data]
        (fun n => n ≠ "Credits.rtf".data)).2 ∧
    List.Perm
      (process_directory ["richlo.woff2".data, "aonchlo.otf".data, "Credits.rtf".data]
        (fun n => n ≠ "Credits.rtf".data)).2
      (["richlo.woff2".data, "aonchlo.otf".data, "Credits.rtf".data].filter
        (fun n => should_process_font n && (n ≠ "Credits.rtf".data : Bool))) :=
  claim8_process_directory ["richlo.woff2".data, "aonchlo.otf".data, "Credits.rtf".data]
    (fun n => n ≠ "Credits.rtf".data)

/-- C9: when the supplied path (or the current working directory when the
positional argument is omitted) is not a directory, the program exits with
status 1, prints the error line to the error stream, prints nothing to
stdout and opens, modifies or saves no font file. -/
theorem claim9_config_error (argv : List (List Char)) (cwd : List Char)
    (isdir : List Char → Bool) (listing : List Char → List (List Char))
    (isfile : List Char → Bool)
    (h : isdir (if argv.length > 1 then argv.getD 1 [] else cwd) = false) :
    main_run argv cwd isdir listing isfile =
      { exitCode := 1,
        errLine := some (errorLine (if argv.length > 1 then argv.getD 1 [] else cwd)),
        outLines := [], processedFiles := [] } := by
  unfold main_run
  have h' : isdir (if 1 < argv.length then (argv[1]?).getD [] else cwd) = false := by
    simpa using h
  simp [h']

/-- C9 witness: a run with an argument that the filesystem reports as not a
directory. -/
theorem claim9_witness :
    main_run ["prog".data, "missing".data] "cwd".data (fun _ => false)
        (fun _ => []) (fun _ => false) =
      { exitCode := 1,
        errLine := some (errorLine
          (if (["prog".data, "missing".data] : List (List Char)).length > 1 then
            (["prog".data, "missing".data] : List (List Char)).getD 1 [] else "cwd".data)),
        outLines := [], processedFiles := [] } :=
  claim9_config_error ["prog".data, "missing".data] "cwd".data (fun _ => false)
    (fun _ => []) (fun _ => false) rfl

/-- C10: the exclusion-prefix test is case-sensitive — the lower-case and
mixed-case variants of the excluded prefix are accepted when the extension
is allowed, the exact-case prefix is rejected, and in general a filename
with an allowed extension is accepted exactly when it does not start with
the excluded prefix in its exact case. -/
theorem claim10_prefix_case_sensitive :
    should_process_font "sf-pro-text-bold.otf".data = true ∧
    should_process_font "Sf-Pro-X.otf".data = true ∧
    should_process_font "SF-Pro-Text-Bold.otf".data = false ∧
    ∀ filename : List Char,
      (splitext filename).2.map Char.toLower ∈ FONT_EXTENSIONS →
      (should_process_font filename = true ↔
        hasPrefixChars "SF-Pro".data filename = false) := by
  refine ⟨by decide, by decide, by decide, ?_⟩
  intro filename hext
  rw [should_process_font_iff]
  constructor
  · rintro ⟨-, hall⟩
    exact hall "SF-Pro".data (by simp [EXCLUDED_PREFIXES])
  · intro hpf
    refine ⟨hext, ?_⟩
    intro pfx hp
    have : pfx = "SF-Pro".data := by simpa [EXCLUDED_PREFIXES] using hp
    rw [this]
    exact hpf

/-- C10 witness: the general clause applied to a concrete allowed-extension
filename. -/
theorem claim10_witness :
    should_process_font "richlo.woff2".data = true ↔
      hasPrefixChars "SF-Pro".data "richlo.woff2".data = false :=
  claim10_prefix_case_sensitive.2.2.2 "richlo.woff2".data (by decide)

end MarkGaelic
